import Mathlib

/-!
Shallow embedding of `src/software_bugfind.py` (a GitHub Java bug-issue /
fixing-commit collector).  HTTP endpoints are modelled as oracle functions
inside an `Api` structure; a raised `requests` HTTP error is an
`Except.error ()` result.  Python dictionary `.get` lookups that may be
absent are modelled as `Option` fields; Python truthiness of strings is
modelled by `truthyStr`.
-/

namespace BugFind

/-- Rendering of an optional string the way a Python f-string renders it
(`None` prints as the four characters "None"). -/
def pyStr : Option String → String
  | some s => s
  | none => "None"

/-- Rendering of an optional integer the way a Python f-string renders it. -/
def pyIntStr : Option Int → String
  | some n => toString n
  | none => "None"

/-- Python truthiness filter for an optional string: `some s` survives only
when `s` is non-empty, mirroring `if s:` on a `str`-or-`None` value. -/
def truthyStr : Option String → Option String
  | some s => if s = "" then none else some s
  | none => none

/-- Calendar date, the result of `dateparser.parse(args.cutoff).date()`. -/
structure Date where
  year : Nat
  month : Nat
  day : Nat
deriving DecidableEq

/-- Zero-padding to two digits, as in Python `date.isoformat()`. -/
def pad2 (n : Nat) : String :=
  if n < 10 then "0" ++ toString n else toString n

/-- Zero-padding to four digits, as in Python `date.isoformat()`. -/
def pad4 (n : Nat) : String :=
  if n < 10 then "000" ++ toString n
  else if n < 100 then "00" ++ toString n
  else if n < 1000 then "0" ++ toString n
  else toString n

/-- Modelled from the Python standard library: `date.isoformat()` renders
`YYYY-MM-DD` with zero padding. -/
def isoformat (d : Date) : String :=
  pad4 d.year ++ "-" ++ pad2 d.month ++ "-" ++ pad2 d.day

/-- The `pull_request` sub-object of an issue-search item. -/
structure PullRef where
  url : Option String
deriving DecidableEq

/-- An item returned by the `/search/issues` endpoint. -/
structure IssueItem where
  id : Option Int
  number : Option Int
  title : Option String
  body : Option String
  created_at : Option String
  updated_at : Option String
  html_url : Option String
  repository_url : Option String
  user_login : Option String
  pull_request : Option PullRef
deriving DecidableEq

/-- An item returned by the `/search/repositories` endpoint (only the field
the program reads). -/
structure RepoItem where
  full_name : Option String
deriving DecidableEq

/-- An item returned by the `/search/commits` endpoint, with `message` the
value of `it.get("commit", {}).get("message", "")`. -/
structure CommitSearchItem where
  sha : Option String
  message : Option String
  url : Option String
deriving DecidableEq

/-- The body returned by a pull-request detail URL. -/
structure PrData where
  merge_commit_sha : Option String
  title : Option String
  commits_url : Option String
deriving DecidableEq

/-- An item of the commit list of a pull request, with `message` the value
of `c.get("commit", {}).get("message", "")`. -/
structure PrCommitItem where
  sha : Option String
  message : Option String
deriving DecidableEq

/-- A file entry inside a commit-detail response. -/
structure CommitFile where
  filename : Option String
  patch : Option String
deriving DecidableEq

/-- A commit-detail response: `message`, committer date, author date as read
through chained `.get` calls, and the `files` array. -/
structure CommitDetail where
  message : Option String
  committer_date : Option String
  author_date : Option String
  files : List CommitFile
deriving DecidableEq

/-- A `/contents/{fname}?ref=sha` response: `truthy` is Python `bool(data)`
and `ctype` is `data.get("type")`. -/
structure ContentsData where
  truthy : Bool
  ctype : Option String
deriving DecidableEq

/-- A combined-status response (`data.get("state")`). -/
structure StatusData where
  state : Option String
deriving DecidableEq

/-- A check-run entry (`status`, `conclusion`, `name` via `.get`). -/
structure CheckRun where
  status : Option String
  conclusion : Option String
  name : Option String
deriving DecidableEq

/-- Oracle model of the GitHub REST endpoints the program calls through
`api_get`.  An `Except.error ()` is an HTTP error raised by
`raise_for_status` (after the one rate-limit retry inside `api_get`). -/
structure Api where
  searchRepos : Nat → Except Unit (List RepoItem)
  searchIssues : String → Nat → Nat → Except Unit (List IssueItem)
  searchCommits : String → Nat → Except Unit (List CommitSearchItem)
  prDetail : String → Except Unit PrData
  prCommits : String → Except Unit (List PrCommitItem)
  commitDetail : String → String → Except Unit CommitDetail
  contents : String → String → String → Except Unit ContentsData
  combinedStatus : String → String → Except Unit StatusData
  checkRuns : String → String → Except Unit (List CheckRun)

/-- Module constant `REPOS_PER_PAGE`. -/
def REPOS_PER_PAGE : Nat := 50

/-- Module constant `MAX_COMMITS_PER_ISSUE`. -/
def MAX_COMMITS_PER_ISSUE : Nat := 5

/-- An HTTP response as seen by `api_get`: the status code and the parsed
`X-RateLimit-Reset` header when present. -/
structure HttpResponse where
  status : Nat
  rateLimitReset : Option Int
deriving DecidableEq

/-- The wait computed on a rate-limited response:
`max(int(reset) - int(time.time()) + 3, 5)`. -/
def rateLimitWait (reset now : Int) : Int := max (reset - now + 3) 5

/-- Model of `api_get`.  `first` is the response to the initial request and
`retry` the response the server would give to the single re-issued request;
`now` is `int(time.time())`.  The result pairs the rate-limit sleep that was
performed (if any) with either the checked response or the status code on
which `raise_for_status` raised. -/
def api_get (now : Int) (first retry : HttpResponse) :
    Option Int × Except Nat HttpResponse :=
  let step : Option Int × HttpResponse :=
    if first.status = 403 then
      match first.rateLimitReset with
      | some reset => (some (rateLimitWait reset now), retry)
      | none => (none, first)
    else (none, first)
  (step.1, if 400 ≤ step.2.status then Except.error step.2.status else Except.ok step.2)

/-- A candidate commit dictionary built by `find_commits_referencing_issue`
(`{"sha": ..., "message": ..., "url": ...}`). -/
structure RawCommit where
  sha : Option String
  message : Option String
  url : Option String
deriving DecidableEq

/-- The inner `for pr in data.get("items", [])` loop of
`find_commits_referencing_issue`.  An HTTP error raised inside the loop is
caught by the surrounding `except`, keeping the commits gathered so far,
hence the empty-list returns on `Except.error`. -/
def prLoop (api : Api) (maxResults : Nat) : List IssueItem → List RawCommit
  | [] => []
  | pr :: rest =>
    match truthyStr ((pr.pull_request.getD ⟨none⟩).url) with
    | none => prLoop api maxResults rest
    | some u =>
      match api.prDetail u with
      | .error _ => []
      | .ok pd =>
        match truthyStr pd.merge_commit_sha with
        | some _ => ⟨pd.merge_commit_sha, pd.title, some u⟩ :: prLoop api maxResults rest
        | none =>
          match truthyStr pd.commits_url with
          | none => prLoop api maxResults rest
          | some cu =>
            match api.prCommits cu with
            | .error _ => []
            | .ok cl =>
              (cl.take maxResults).map
                  (fun c => (⟨c.sha, c.message, pd.commits_url⟩ : RawCommit))
                ++ prLoop api maxResults rest

/-- The final deduplicate-and-truncate loop of
`find_commits_referencing_issue`: skip falsy or already-seen shas, append,
and break once the output length has reached `max_results`.  `outLen` is
`len(out)` on entry to the iteration. -/
def dedupLoop (maxResults : Nat) (seen : List String) (outLen : Nat) :
    List RawCommit → List RawCommit
  | [] => []
  | c :: rest =>
    match truthyStr c.sha with
    | none => dedupLoop maxResults seen outLen rest
    | some s =>
      if seen.contains s then dedupLoop maxResults seen outLen rest
      else if maxResults ≤ outLen + 1 then [c]
      else c :: dedupLoop maxResults (s :: seen) (outLen + 1) rest

/-- The `commits` list of `find_commits_referencing_issue` as it stands when
the deduplication loop is reached: commit search results first, then (when
the bound was not yet reached) the PR-derived commits. -/
def gatherCandidates (api : Api) (repoFullname : Option String)
    (issueNumber : Option Int) (maxResults : Nat) : List RawCommit :=
  let q := "repo:" ++ pyStr repoFullname ++ " \"#" ++ pyIntStr issueNumber ++ "\""
  let commits1 : List RawCommit :=
    match api.searchCommits q maxResults with
    | .error _ => []
    | .ok items =>
      items.filterMap fun it =>
        match truthyStr it.sha with
        | some _ => some ⟨it.sha, it.message, it.url⟩
        | none => none
  if commits1.length < maxResults then
    let qpr := "repo:" ++ pyStr repoFullname ++ " is:pr \"#" ++ pyIntStr issueNumber ++ "\""
    match api.searchIssues qpr maxResults 1 with
    | .error _ => commits1
    | .ok prs => commits1 ++ prLoop api maxResults prs
  else commits1

/-- Model of `find_commits_referencing_issue`: commit search, then (when the
bound is not yet reached) a PR search with merge-commit extraction, then
deduplication by sha and truncation. -/
def find_commits_referencing_issue (api : Api) (repoFullname : Option String)
    (issueNumber : Option Int) (maxResults : Nat) : List RawCommit :=
  dedupLoop maxResults [] 0 (gatherCandidates api repoFullname issueNumber maxResults)

/-- Model of `get_commit_details` (URL components rendered as in the
f-string). -/
def get_commit_details (api : Api) (repoFullname sha : Option String) :
    Except Unit CommitDetail :=
  api.commitDetail (pyStr repoFullname) (pyStr sha)

/-- The per-candidate loop body of `commit_has_build_file`: an HTTP error on
a lookup means "continue with the next candidate". -/
def buildFileLoop (api : Api) (repo ref : String) : List String → Bool × Option String
  | [] => (false, none)
  | fname :: rest =>
    match api.contents repo fname ref with
    | .error _ => buildFileLoop api repo ref rest
    | .ok d =>
      if d.truthy && d.ctype == some "file" then (true, some fname)
      else buildFileLoop api repo ref rest

/-- Model of `commit_has_build_file`, with the candidate list exactly as in
the source (note the repeated `"pom.xml"`). -/
def commit_has_build_file (api : Api) (repoFullname sha : Option String) :
    Bool × Option String :=
  buildFileLoop api (pyStr repoFullname) (pyStr sha)
    ["pom.xml", "build.gradle", "build.gradle.kts", "settings.gradle", "pom.xml"]

/-- Model of `commit_check_status_success`: combined status first, then the
check-runs list, any lookup error falling through to the next step. -/
def commit_check_status_success (api : Api) (repoFullname sha : Option String) :
    Bool × Option String :=
  let repo := pyStr repoFullname
  let s := pyStr sha
  let statusOk : Bool :=
    match api.combinedStatus repo s with
    | .ok d => d.state == some "success"
    | .error _ => false
  if statusOk then (true, some "status:success")
  else
    match api.checkRuns repo s with
    | .error _ => (false, none)
    | .ok runs =>
      match runs.find? (fun r => r.status == some "completed" && r.conclusion == some "success") with
      | some r => (true, some ("check-run:" ++ pyStr r.name))
      | none => (false, none)

/-- The normalized issue dictionary built by `normalize_issue_item`. -/
structure NormIssue where
  issue_id : Option Int
  issue_number : Option Int
  issue_title : Option String
  issue_body : String
  issue_created_at : Option String
  issue_updated_at : Option String
  issue_url : Option String
  repo_fullname : Option String
  repo_url : Option String
  user_login : Option String
deriving DecidableEq

/-- The commit-side fields of an output record. -/
structure CommitFields where
  commit_sha : Option String
  commit_message : Option String
  commit_date : Option String
  patch : Option String
  commit_has_build_file : Bool
  commit_build_file_name : Option String
  commit_check_success : Bool
  commit_check_info : Option String
deriving DecidableEq

/-- One output record: the normalized issue fields merged with the commit
fields. -/
structure Record where
  issue : NormIssue
  commit : CommitFields
deriving DecidableEq

/-- Model of `normalize_issue_item` (`issue.get("body") or ""` collapses a
missing or empty body to the empty string). -/
def normalize_issue_item (issue : IssueItem) (repoFullname : Option String) : NormIssue :=
  { issue_id := issue.id
    issue_number := issue.number
    issue_title := issue.title
    issue_body := (truthyStr issue.body).getD ""
    issue_created_at := issue.created_at
    issue_updated_at := issue.updated_at
    issue_url := issue.html_url
    repo_fullname := repoFullname
    repo_url := issue.repository_url
    user_login := issue.user_login }

/-- The commit fields recorded for an issue with no candidate commit. -/
def nullCommitFields : CommitFields :=
  { commit_sha := none
    commit_message := none
    commit_date := none
    patch := none
    commit_has_build_file := false
    commit_build_file_name := none
    commit_check_success := false
    commit_check_info := none }

/-- The patch concatenation of `main`: per changed file a `--- a/… +++ b/…`
header plus its `patch` text, all joined by blank lines; `None` when no file
has a patch. -/
def buildPatchText (files : List CommitFile) : Option String :=
  let parts := files.filterMap fun f =>
    match truthyStr f.patch with
    | some p =>
      some ("--- a/" ++ pyStr f.filename ++ "\n+++ b/" ++ pyStr f.filename ++ "\n" ++ p)
    | none => none
  if parts.isEmpty then none else some (String.intercalate "\n\n" parts)

/-- Processing of one candidate commit inside `main`: `none` when
`get_commit_details` raised (the `except: continue`), otherwise the record
built from the commit detail and the two heuristic checks. -/
def processCommit (api : Api) (full : Option String) (n : NormIssue) (c : RawCommit) :
    Option Record :=
  match get_commit_details api full c.sha with
  | .error _ => none
  | .ok cd =>
    some ⟨n,
      { commit_sha := c.sha
        commit_message := cd.message
        commit_date :=
          match truthyStr cd.committer_date with
          | some d => some d
          | none => cd.author_date
        patch := buildPatchText cd.files
        commit_has_build_file := (commit_has_build_file api full c.sha).1
        commit_build_file_name := (commit_has_build_file api full c.sha).2
        commit_check_success := (commit_check_status_success api full c.sha).1
        commit_check_info := (commit_check_status_success api full c.sha).2 }⟩

/-- The `for c in commits` loop of `main`: skip a commit whose detail fetch
failed, append the record otherwise, and break right after a record whose
two heuristic flags are both true. -/
def commitsLoop (api : Api) (full : Option String) (n : NormIssue) :
    List RawCommit → List Record
  | [] => []
  | c :: rest =>
    match processCommit api full n c with
    | none => commitsLoop api full n rest
    | some rec =>
      if rec.commit.commit_has_build_file && rec.commit.commit_check_success then [rec]
      else rec :: commitsLoop api full n rest

/-- Processing of one issue-search item inside `main`: pull requests are
skipped, an issue without candidate commits yields one null-commit record,
otherwise the candidate commits are processed by `commitsLoop`. -/
def processIssue (api : Api) (full : Option String) (iss : IssueItem) : List Record :=
  if iss.pull_request.isSome then []
  else
    let n := normalize_issue_item iss full
    let commits := find_commits_referencing_issue api full n.issue_number MAX_COMMITS_PER_ISSUE
    if commits.isEmpty then [⟨n, nullCommitFields⟩]
    else commitsLoop api full n commits

/-- The `for iss in issues` loop of `main`, concatenating the records of the
issues in order. -/
def issuesFold (api : Api) (full : Option String) : List IssueItem → List Record
  | [] => []
  | iss :: rest => processIssue api full iss ++ issuesFold api full rest

/-- The `while` loop of `search_repos_language_java`, fuelled.  `.ok none`
means the fuel ran out before the loop exited; an `.error` is a propagated
HTTP error of a page fetch. -/
def reposLoop (api : Api) (perPage maxRepos : Nat) :
    Nat → Nat → List RepoItem → Except Unit (Option (List RepoItem))
  | 0, _, _ => .ok none
  | fuel + 1, page, repos =>
    if repos.length < maxRepos then
      match api.searchRepos page with
      | .error e => .error e
      | .ok items =>
        if items.isEmpty then .ok (some repos)
        else if items.length < perPage then .ok (some (repos ++ items))
        else reposLoop api perPage maxRepos fuel (page + 1) (repos ++ items)
    else .ok (some repos)

/-- Model of `search_repos_language_java`: run the pagination loop from page
1 and truncate the result to `max_repos`. -/
def search_repos_language_java (api : Api) (perPage maxRepos fuel : Nat) :
    Except Unit (Option (List RepoItem)) :=
  (reposLoop api perPage maxRepos fuel 1 []).map (Option.map (fun l => l.take maxRepos))

/-- The `while` loop of `search_issues_for_repo`, fuelled, for a fixed query
string. -/
def issuesLoop (api : Api) (q : String) (perPage maxIssues : Nat) :
    Nat → Nat → List IssueItem → Except Unit (Option (List IssueItem))
  | 0, _, _ => .ok none
  | fuel + 1, page, items =>
    if items.length < maxIssues then
      match api.searchIssues q perPage page with
      | .error e => .error e
      | .ok hits =>
        if hits.length < perPage then .ok (some (items ++ hits))
        else issuesLoop api q perPage maxIssues fuel (page + 1) (items ++ hits)
    else .ok (some items)

/-- The query string `f"repo:{repo_fullname} {q_extra}"` built inside
`search_issues_for_repo`. -/
def issueQueryFor (repoFullname : Option String) (qExtra : String) : String :=
  "repo:" ++ pyStr repoFullname ++ " " ++ qExtra

/-- Model of `search_issues_for_repo`: run the pagination loop from page 1
and truncate the result to `max_issues`. -/
def search_issues_for_repo (api : Api) (repoFullname : Option String) (qExtra : String)
    (perPage maxIssues fuel : Nat) : Except Unit (Option (List IssueItem)) :=
  (issuesLoop api (issueQueryFor repoFullname qExtra) perPage maxIssues fuel 1 []).map
    (Option.map (fun l => l.take maxIssues))

/-- The `q_extra` string built in `main` from the cutoff date. -/
def qExtraFor (cutoff : Date) : String :=
  "is:issue label:bug created:>=" ++ isoformat cutoff

/-- The `for repo in repos` loop of `main`.  An HTTP error of the per-repo
issue search is not caught anywhere and therefore propagates out of `main`
(`.error`); `.ok none` is fuel exhaustion of an inner pagination loop. -/
def processRepos (api : Api) (cutoff : Date) (maxIssues fuelI : Nat) :
    List RepoItem → Except Unit (Option (List Record))
  | [] => .ok (some [])
  | repo :: rest =>
    match search_issues_for_repo api repo.full_name (qExtraFor cutoff) 100 maxIssues fuelI with
    | .error e => .error e
    | .ok none => .ok none
    | .ok (some issues) =>
      match processRepos api cutoff maxIssues fuelI rest with
      | .error e => .error e
      | .ok none => .ok none
      | .ok (some more) => .ok (some (issuesFold api repo.full_name issues ++ more))

/-- Model of `main` (after argument parsing): repository search, then the
per-repo / per-issue / per-commit processing, returning the final
`all_records` list.  An HTTP error of the repository search or of a per-repo
issue search propagates; errors of the item-level fetches are caught inside
the functions above. -/
def mainModel (api : Api) (cutoff : Date) (maxRepos maxIssuesPerRepo fuelR fuelI : Nat) :
    Except Unit (Option (List Record)) :=
  match search_repos_language_java api REPOS_PER_PAGE maxRepos fuelR with
  | .error e => .error e
  | .ok none => .ok none
  | .ok (some repos) => processRepos api cutoff maxIssuesPerRepo fuelI repos

/-- Success of one build-file candidate lookup: the contents request
succeeded, the body is truthy and its `type` is `"file"`.  This is the loop
condition of `commit_has_build_file` with a caught HTTP error counting as
absence. -/
def buildFileOk (api : Api) (repo ref fname : String) : Bool :=
  match api.contents repo fname ref with
  | .error _ => false
  | .ok d => d.truthy && d.ctype == some "file"

/-- The segment of the candidate list that `main`'s commit loop actually
iterates over: everything up to and including the first commit whose detail
fetch succeeds and whose two heuristic checks are both true. -/
def stopSegment (api : Api) (full : Option String) : List RawCommit → List RawCommit
  | [] => []
  | c :: rest =>
    match get_commit_details api full c.sha with
    | .error _ => c :: stopSegment api full rest
    | .ok _ =>
      if (commit_has_build_file api full c.sha).1 && (commit_check_status_success api full c.sha).1
      then [c]
      else c :: stopSegment api full rest

/-- Count of the (issue, commit) pairs the commit loop processes, i.e. of
the candidates whose detail fetch succeeds, up to and including the first
one whose two heuristic checks are both true.  A counting abstraction used
to state the record-count bookkeeping claim. -/
def pairsProcessed (api : Api) (full : Option String) : List RawCommit → Nat
  | [] => 0
  | c :: rest =>
    match get_commit_details api full c.sha with
    | .error _ => pairsProcessed api full rest
    | .ok _ =>
      if (commit_has_build_file api full c.sha).1 && (commit_check_status_success api full c.sha).1
      then 1
      else 1 + pairsProcessed api full rest

/-- Per-issue contribution to the output bookkeeping: (number of processed
(issue, commit) pairs, number of no-candidate issues, which is 0 or 1). -/
def issueCounts (api : Api) (full : Option String) (iss : IssueItem) : Nat × Nat :=
  if iss.pull_request.isSome then (0, 0)
  else
    let n := normalize_issue_item iss full
    let commits := find_commits_referencing_issue api full n.issue_number MAX_COMMITS_PER_ISSUE
    if commits.isEmpty then (0, 1)
    else (pairsProcessed api full commits, 0)

/-- Sum of `issueCounts` over an issue list. -/
def issuesFoldCounts (api : Api) (full : Option String) : List IssueItem → Nat × Nat
  | [] => (0, 0)
  | iss :: rest =>
    let a := issueCounts api full iss
    let b := issuesFoldCounts api full rest
    (a.1 + b.1, a.2 + b.2)

/-- Bookkeeping counts of `processRepos`, mirroring its control flow. -/
def reposFoldCounts (api : Api) (cutoff : Date) (maxIssues fuelI : Nat) :
    List RepoItem → Except Unit (Option (Nat × Nat))
  | [] => .ok (some (0, 0))
  | repo :: rest =>
    match search_issues_for_repo api repo.full_name (qExtraFor cutoff) 100 maxIssues fuelI with
    | .error e => .error e
    | .ok none => .ok none
    | .ok (some issues) =>
      match reposFoldCounts api cutoff maxIssues fuelI rest with
      | .error e => .error e
      | .ok none => .ok none
      | .ok (some more) =>
        let a := issuesFoldCounts api repo.full_name issues
        .ok (some (a.1 + more.1, a.2 + more.2))

/-- Bookkeeping counts of `mainModel`: total processed (issue, commit)
pairs and total issues recorded without a candidate commit. -/
def mainCounts (api : Api) (cutoff : Date) (maxRepos maxIssuesPerRepo fuelR fuelI : Nat) :
    Except Unit (Option (Nat × Nat)) :=
  match search_repos_language_java api REPOS_PER_PAGE maxRepos fuelR with
  | .error e => .error e
  | .ok none => .ok none
  | .ok (some repos) => reposFoldCounts api cutoff maxIssuesPerRepo fuelI repos

/-- A healthy issue item used by concrete witnesses. -/
def wIssue : IssueItem :=
  { id := some 10
    number := some 7
    title := some "NPE in parser module"
    body := some "stack trace"
    created_at := some "2025-03-01T00:00:00Z"
    updated_at := some "2025-03-02T00:00:00Z"
    html_url := some "https://example.test/i/7"
    repository_url := some "https://example.test/r"
    user_login := some "alice"
    pull_request := none }

/-- A fully healthy concrete oracle used by witnesses: one repository, one
bug issue, one candidate commit that passes both heuristics. -/
def wApi : Api :=
  { searchRepos := fun _ => .ok [⟨some "acme/lib"⟩]
    searchIssues := fun _ _ _ => .ok [wIssue]
    searchCommits := fun _ _ => .ok [⟨some "abc123", some "fix #7", none⟩]
    prDetail := fun _ => .error ()
    prCommits := fun _ => .error ()
    commitDetail := fun _ _ => .ok ⟨some "fix #7", some "2025-03-02T00:00:00Z", none, []⟩
    contents := fun _ _ _ => .ok ⟨true, some "file"⟩
    combinedStatus := fun _ _ => .ok ⟨some "success"⟩
    checkRuns := fun _ _ => .ok [] }

/-- A concrete oracle whose per-repo issue search raises an HTTP error while
the repository search succeeds. -/
def issueSearchFailApi : Api :=
  { searchRepos := fun _ => .ok [⟨some "acme/lib"⟩]
    searchIssues := fun _ _ _ => .error ()
    searchCommits := fun _ _ => .error ()
    prDetail := fun _ => .error ()
    prCommits := fun _ => .error ()
    commitDetail := fun _ _ => .error ()
    contents := fun _ _ _ => .error ()
    combinedStatus := fun _ _ => .error ()
    checkRuns := fun _ _ => .error ()
    }

/-- A concrete oracle whose commit search returns a single commit and whose
other endpoints all fail. -/
def oneCommitApi : Api :=
  { searchRepos := fun _ => .error ()
    searchIssues := fun _ _ _ => .error ()
    searchCommits := fun _ _ => .ok [⟨some "aaa", none, none⟩]
    prDetail := fun _ => .error ()
    prCommits := fun _ => .error ()
    commitDetail := fun _ _ => .error ()
    contents := fun _ _ _ => .error ()
    combinedStatus := fun _ _ => .error ()
    checkRuns := fun _ _ => .error ()
    }

/-- Lexicographic comparison of character lists, used as the order on ISO
date strings (byte-wise lexicographic order, as Python string comparison on
ISO dates). -/
def charListLe : List Char → List Char → Bool
  | [], _ => true
  | _ :: _, [] => false
  | a :: as, b :: bs =>
    if a < b then true
    else if a = b then charListLe as bs
    else false

/-- Lexicographic string comparison via `charListLe`. -/
def strLe (a b : String) : Bool := charListLe a.data b.data

/-- The issue item of `wIssue` turned into a pull-request search item. -/
def prItem : IssueItem := { wIssue with pull_request := some ⟨none⟩ }

/-- The single output record `mainModel wApi` produces. -/
def wRec : Record :=
  ⟨normalize_issue_item wIssue (some "acme/lib"),
    { commit_sha := some "abc123"
      commit_message := some "fix #7"
      commit_date := some "2025-03-02T00:00:00Z"
      patch := none
      commit_has_build_file := true
      commit_build_file_name := some "pom.xml"
      commit_check_success := true
      commit_check_info := some "status:success" }⟩

/-- The output record list of `mainModel wApi`. -/
def wRecs : List Record := [wRec]

/-- A concrete oracle whose repository and issue searches succeed while all
item-level endpoints raise HTTP errors. -/
def itemFailApi : Api :=
  { searchRepos := fun _ => .ok [⟨some "acme/lib"⟩]
    searchIssues := fun _ _ _ => .ok [wIssue]
    searchCommits := fun _ _ => .error ()
    prDetail := fun _ => .error ()
    prCommits := fun _ => .error ()
    commitDetail := fun _ _ => .error ()
    contents := fun _ _ _ => .error ()
    combinedStatus := fun _ _ => .error ()
    checkRuns := fun _ _ => .error ()
    }

/-- The candidate loop of `commit_has_build_file` on an exhausted list. -/
theorem buildFileLoop_nil (api : Api) (repo ref : String) :
    buildFileLoop api repo ref [] = (false, none) := rfl

/-- Unfolding of one iteration of the candidate loop of
`commit_has_build_file`. -/
theorem buildFileLoop_cons (api : Api) (repo ref fname : String) (rest : List String) :
    buildFileLoop api repo ref (fname :: rest) =
      if buildFileOk api repo ref fname then (true, some fname)
      else buildFileLoop api repo ref rest := by
  cases h : api.contents repo fname ref with
  | error e => simp [buildFileLoop, buildFileOk, h]
  | ok d => simp [buildFileLoop, buildFileOk, h]

/-- C3: a 403 response with an `X-RateLimit-Reset` header makes `api_get`
sleep `max(reset - now + 3, 5)` seconds and re-issue the request exactly
once, the status check then applying to the retried response; a 403 without
the header, or any other failing status, raises immediately with no retry,
and a passing non-403 response is returned with no rate-limit sleep. -/
theorem api_get_rate_limit_behavior (now : Int) (first retry : HttpResponse) :
    (∀ reset, first.status = 403 → first.rateLimitReset = some reset →
      api_get now first retry =
        (some (max (reset - now + 3) 5),
         if 400 ≤ retry.status then Except.error retry.status else Except.ok retry))
    ∧ (first.status = 403 → first.rateLimitReset = none →
        api_get now first retry = (none, Except.error first.status))
    ∧ (first.status ≠ 403 → 400 ≤ first.status →
        api_get now first retry = (none, Except.error first.status))
    ∧ (first.status ≠ 403 → first.status < 400 →
        api_get now first retry = (none, Except.ok first)) := by
  refine ⟨?_, ?_, ?_, ?_⟩
  · intro reset h hr
    simp [api_get, rateLimitWait, h, hr]
  · intro h hr
    simp [api_get, h, hr]
  · intro h hge
    simp [api_get, h, hge]
  · intro h hlt
    simp [api_get, h, Nat.not_le.mpr hlt]

/-- Witness for `api_get_rate_limit_behavior` at a concrete rate-limited
response whose retry succeeds. -/
theorem api_get_rate_limit_behavior_witness :
    api_get 50 ⟨403, some 100⟩ ⟨200, none⟩ = (some 53, Except.ok ⟨200, none⟩) := by
  have h := (api_get_rate_limit_behavior 50 ⟨403, some 100⟩ ⟨200, none⟩).1 100 rfl rfl
  rw [h]
  rfl

/-- C6: `commit_has_build_file` returns `(true, name)` for the first of the
four build descriptor candidates whose contents lookup succeeds with a
truthy body of type `"file"`, a failing lookup counting as absence, and
`(false, none)` when no candidate qualifies (the duplicated trailing
`"pom.xml"` candidate is redundant, its lookup repeating the first). -/
theorem commit_has_build_file_first_candidate (api : Api) (full sha : Option String) :
    commit_has_build_file api full sha =
      (match ["pom.xml", "build.gradle", "build.gradle.kts", "settings.gradle"].find?
          (buildFileOk api (pyStr full) (pyStr sha)) with
       | some f => (true, some f)
       | none => (false, none)) := by
  cases h1 : buildFileOk api (pyStr full) (pyStr sha) "pom.xml" <;>
  cases h2 : buildFileOk api (pyStr full) (pyStr sha) "build.gradle" <;>
  cases h3 : buildFileOk api (pyStr full) (pyStr sha) "build.gradle.kts" <;>
  cases h4 : buildFileOk api (pyStr full) (pyStr sha) "settings.gradle" <;>
  simp [commit_has_build_file, buildFileLoop_cons, buildFileLoop_nil, List.find?, h1, h2, h3, h4]

/-- C7: `commit_check_status_success` reports success exactly when the
combined status state is `"success"` or some check run is completed with
conclusion `"success"`; in every other case, including lookup errors and an
empty check-run list, the result is `(false, none)`. -/
theorem commit_check_status_success_iff (api : Api) (full sha : Option String) :
    ((commit_check_status_success api full sha).1 = true ↔
      (∃ d, api.combinedStatus (pyStr full) (pyStr sha) = .ok d ∧ d.state = some "success") ∨
      (∃ runs, api.checkRuns (pyStr full) (pyStr sha) = .ok runs ∧
        ∃ r ∈ runs, r.status = some "completed" ∧ r.conclusion = some "success"))
    ∧ ((commit_check_status_success api full sha).1 = false →
        commit_check_status_success api full sha = (false, none)) := by
  cases hs : api.combinedStatus (pyStr full) (pyStr sha) with
  | ok d =>
    by_cases hd : d.state = some "success"
    · have hval : commit_check_status_success api full sha = (true, some "status:success") := by
        simp [commit_check_status_success, hs, hd]
      rw [hval]
      refine ⟨⟨fun _ => Or.inl ⟨d, rfl, hd⟩, fun _ => rfl⟩, fun h => by simp at h⟩
    · cases hr : api.checkRuns (pyStr full) (pyStr sha) with
      | error e =>
        have hval : commit_check_status_success api full sha = (false, none) := by
          simp [commit_check_status_success, hs, hd, hr]
        rw [hval]
        refine ⟨⟨fun h => by simp at h, ?_⟩, fun _ => rfl⟩
        rintro (⟨d', hd', hst⟩ | ⟨runs', hruns', r, hrmem, hrs, hrc⟩)
        · cases hd'
          exact absurd hst hd
        · simp at hruns'
      | ok runs =>
        cases hf : runs.find?
            (fun r => r.status == some "completed" && r.conclusion == some "success") with
        | none =>
          have hval : commit_check_status_success api full sha = (false, none) := by
            simp [commit_check_status_success, hs, hd, hr, hf]
          rw [hval]
          refine ⟨⟨fun h => by simp at h, ?_⟩, fun _ => rfl⟩
          rintro (⟨d', hd', hst⟩ | ⟨runs', hruns', r, hrmem, hrs, hrc⟩)
          · cases hd'
            exact absurd hst hd
          · cases hruns'
            have := List.find?_eq_none.mp hf r hrmem
            simp [hrs, hrc] at this
        | some r =>
          have hrmem := List.mem_of_find?_eq_some hf
          have hrp := List.find?_some hf
          simp only [Bool.and_eq_true, beq_iff_eq] at hrp
          have hval : commit_check_status_success api full sha =
              (true, some ("check-run:" ++ pyStr r.name)) := by
            simp [commit_check_status_success, hs, hd, hr, hf]
          rw [hval]
          exact ⟨⟨fun _ => Or.inr ⟨runs, rfl, r, hrmem, hrp.1, hrp.2⟩, fun _ => rfl⟩,
            fun h => by simp at h⟩
  | error e =>
    cases hr : api.checkRuns (pyStr full) (pyStr sha) with
    | error e2 =>
      have hval : commit_check_status_success api full sha = (false, none) := by
        simp [commit_check_status_success, hs, hr]
      rw [hval]
      refine ⟨⟨fun h => by simp at h, ?_⟩, fun _ => rfl⟩
      rintro (⟨d', hd', hst⟩ | ⟨runs', hruns', r, hrmem, hrs, hrc⟩)
      · simp at hd'
      · simp at hruns'
    | ok runs =>
      cases hf : runs.find?
          (fun r => r.status == some "completed" && r.conclusion == some "success") with
      | none =>
        have hval : commit_check_status_success api full sha = (false, none) := by
          simp [commit_check_status_success, hs, hr, hf]
        rw [hval]
        refine ⟨⟨fun h => by simp at h, ?_⟩, fun _ => rfl⟩
        rintro (⟨d', hd', hst⟩ | ⟨runs', hruns', r, hrmem, hrs, hrc⟩)
        · simp at hd'
        · cases hruns'
          have := List.find?_eq_none.mp hf r hrmem
          simp [hrs, hrc] at this
      | some r =>
        have hrmem := List.mem_of_find?_eq_some hf
        have hrp := List.find?_some hf
        simp only [Bool.and_eq_true, beq_iff_eq] at hrp
        have hval : commit_check_status_success api full sha =
            (true, some ("check-run:" ++ pyStr r.name)) := by
          simp [commit_check_status_success, hs, hr, hf]
        rw [hval]
        exact ⟨⟨fun _ => Or.inr ⟨runs, rfl, r, hrmem, hrp.1, hrp.2⟩, fun _ => rfl⟩,
          fun h => by simp at h⟩

/-- Witness for `commit_check_status_success_iff`: the healthy oracle
reports success through its combined status. -/
theorem commit_check_status_success_iff_witness :
    (commit_check_status_success wApi (some "acme/lib") (some "abc123")).1 = true :=
  (commit_check_status_success_iff wApi (some "acme/lib") (some "abc123")).1.mpr
    (Or.inl ⟨⟨some "success"⟩, rfl, rfl⟩)

/-- C10: issue-search items carrying a `pull_request` field are skipped
before any commit lookup, so the produced records are exactly those of the
non-pull-request items. -/
theorem pull_request_items_skipped (api : Api) (full : Option String)
    (issues : List IssueItem) :
    issuesFold api full issues =
      issuesFold api full (issues.filter fun i => i.pull_request.isNone)
    ∧ ∀ iss : IssueItem, iss.pull_request.isSome = true →
        processIssue api full iss = [] := by
  constructor
  · induction issues with
    | nil => rfl
    | cons i rest ih =>
      cases hp : i.pull_request with
      | some pr =>
        simp [issuesFold, List.filter, hp, processIssue, ih]
      | none =>
        simp [issuesFold, List.filter, hp, ih]
  · intro iss h
    simp [processIssue, h]

/-- Witness for `pull_request_items_skipped`: a concrete pull-request item
produces no record. -/
theorem pull_request_items_skipped_witness :
    processIssue wApi (some "acme/lib") prItem = [] :=
  (pull_request_items_skipped wApi (some "acme/lib") []).2 prItem rfl

/-- A truthy optional string is that string. -/
theorem truthyStr_eq_some {o : Option String} {s : String} (h : truthyStr o = some s) :
    o = some s := by
  cases o with
  | none => simp [truthyStr] at h
  | some x =>
    by_cases hx : x = ""
    · simp [truthyStr, hx] at h
    · simp [truthyStr, hx] at h
      rw [h]

/-- Every entry kept by the deduplication loop has a sha that is present and
was not previously seen. -/
theorem dedupLoop_mem_sha (maxr : Nat) :
    ∀ (cs : List RawCommit) (seen : List String) (outLen : Nat),
      ∀ c ∈ dedupLoop maxr seen outLen cs, ∃ s, c.sha = some s ∧ seen.contains s = false := by
  intro cs
  induction cs with
  | nil =>
    intro seen outLen c hc
    simp [dedupLoop] at hc
  | cons a rest ih =>
    intro seen outLen c hc
    cases ht : truthyStr a.sha with
    | none =>
      simp only [dedupLoop, ht] at hc
      exact ih seen outLen c hc
    | some s =>
      by_cases hseen : seen.contains s
      · simp only [dedupLoop, ht, if_pos hseen] at hc
        exact ih seen outLen c hc
      · by_cases hbr : maxr ≤ outLen + 1
        · simp only [dedupLoop, ht, if_neg hseen, if_pos hbr, List.mem_singleton] at hc
          subst hc
          exact ⟨s, truthyStr_eq_some ht, by simpa using hseen⟩
        · simp only [dedupLoop, ht, if_neg hseen, if_neg hbr, List.mem_cons] at hc
          cases hc with
          | inl hc =>
            subst hc
            exact ⟨s, truthyStr_eq_some ht, by simpa using hseen⟩
          | inr hc =>
            obtain ⟨t, hts, htc⟩ := ih (s :: seen) (outLen + 1) c hc
            simp only [List.contains_cons, Bool.or_eq_false_iff] at htc
            exact ⟨t, hts, htc.2⟩

/-- The deduplication loop never emits two entries with the same sha. -/
theorem dedupLoop_pairwise (maxr : Nat) :
    ∀ (cs : List RawCommit) (seen : List String) (outLen : Nat),
      List.Pairwise (fun a b => a.sha ≠ b.sha) (dedupLoop maxr seen outLen cs) := by
  intro cs
  induction cs with
  | nil =>
    intro seen outLen
    simp [dedupLoop]
  | cons a rest ih =>
    intro seen outLen
    cases ht : truthyStr a.sha with
    | none =>
      simp only [dedupLoop, ht]
      exact ih seen outLen
    | some s =>
      by_cases hseen : seen.contains s
      · simp only [dedupLoop, ht, if_pos hseen]
        exact ih seen outLen
      · by_cases hbr : maxr ≤ outLen + 1
        · simp only [dedupLoop, ht, if_neg hseen, if_pos hbr]
          exact List.pairwise_singleton _ _
        · simp only [dedupLoop, ht, if_neg hseen, if_neg hbr]
          refine List.Pairwise.cons ?_ (ih (s :: seen) (outLen + 1))
          intro b hb
          obtain ⟨t, hts, htc⟩ := dedupLoop_mem_sha maxr rest (s :: seen) (outLen + 1) b hb
          simp only [List.contains_cons, Bool.or_eq_false_iff, beq_eq_false_iff_ne] at htc
          rw [truthyStr_eq_some ht, hts]
          intro hcontra
          exact htc.1 (by injection hcontra with h; rw [h])

/-- Length bound of the deduplication loop while the bound is not yet
reached. -/
theorem dedupLoop_length (maxr : Nat) :
    ∀ (cs : List RawCommit) (seen : List String) (outLen : Nat), outLen < maxr →
      (dedupLoop maxr seen outLen cs).length + outLen ≤ maxr := by
  intro cs
  induction cs with
  | nil =>
    intro seen outLen h
    simp [dedupLoop]
    omega
  | cons a rest ih =>
    intro seen outLen h
    cases ht : truthyStr a.sha with
    | none =>
      simp only [dedupLoop, ht]
      exact ih seen outLen h
    | some s =>
      by_cases hseen : seen.contains s
      · simp only [dedupLoop, ht, if_pos hseen]
        exact ih seen outLen h
      · by_cases hbr : maxr ≤ outLen + 1
        · simp only [dedupLoop, ht, if_neg hseen, if_pos hbr, List.length_singleton]
          omega
        · simp only [dedupLoop, ht, if_neg hseen, if_neg hbr, List.length_cons]
          have := ih (s :: seen) (outLen + 1) (by omega)
          omega

/-- C4 counterexample: with `max_results = 0` the deduplication loop appends
one entry before checking the bound, so the returned list has length 1,
exceeding `max_results`. -/
theorem find_commits_dedup_counterexample :
    (find_commits_referencing_issue oneCommitApi (some "r") (some 1) 0).length = 1 ∧
    ¬ (find_commits_referencing_issue oneCommitApi (some "r") (some 1) 0).length ≤ 0 := by
  refine ⟨rfl, ?_⟩
  have h : (find_commits_referencing_issue oneCommitApi (some "r") (some 1) 0).length = 1 := rfl
  omega

/-- C4 amended: the candidate list returned by
`find_commits_referencing_issue` never repeats a sha and never contains a
missing sha; its length is at most `max_results` whenever
`max_results ≥ 1` (with `max_results = 0` a single entry can slip through,
because the loop appends before checking the bound).  Deduplication is
complete before any commit detail is fetched: the function never consults
the commit-detail endpoint. -/
theorem find_commits_dedup_amended (api : Api) (full : Option String) (num : Option Int)
    (maxr : Nat) :
    (∀ c ∈ find_commits_referencing_issue api full num maxr, c.sha.isSome = true)
    ∧ List.Pairwise (fun a b => a.sha ≠ b.sha)
        (find_commits_referencing_issue api full num maxr)
    ∧ (1 ≤ maxr → (find_commits_referencing_issue api full num maxr).length ≤ maxr) := by
  refine ⟨?_, ?_, ?_⟩
  · intro c hc
    obtain ⟨s, hs, -⟩ :=
      dedupLoop_mem_sha maxr (gatherCandidates api full num maxr) [] 0 c hc
    simp [hs]
  · exact dedupLoop_pairwise maxr (gatherCandidates api full num maxr) [] 0
  · intro h
    have := dedupLoop_length maxr (gatherCandidates api full num maxr) [] 0 h
    show (dedupLoop maxr [] 0 (gatherCandidates api full num maxr)).length ≤ maxr
    omega

/-- Witness for `find_commits_dedup_amended` at a concrete oracle and a
positive bound. -/
theorem find_commits_dedup_amended_witness :
    (∀ c ∈ find_commits_referencing_issue oneCommitApi (some "r") (some 1) 2,
      c.sha.isSome = true)
    ∧ (find_commits_referencing_issue oneCommitApi (some "r") (some 1) 2).length ≤ 2 :=
  ⟨(find_commits_dedup_amended oneCommitApi (some "r") (some 1) 2).1,
   (find_commits_dedup_amended oneCommitApi (some "r") (some 1) 2).2.2 (by decide)⟩

/-- The repository pagination loop cannot exhaust its fuel when the fuel
exceeds the number of repositories still missing: every continuing
iteration either stops or grows the accumulator. -/
theorem reposLoop_terminates (api : Api) (perPage maxRepos : Nat) :
    ∀ (fuel page : Nat) (acc : List RepoItem), maxRepos - acc.length < fuel →
      reposLoop api perPage maxRepos fuel page acc ≠ .ok none := by
  intro fuel
  induction fuel with
  | zero =>
    intro page acc h
    omega
  | succ n ih =>
    intro page acc h
    simp only [reposLoop]
    by_cases hlen : acc.length < maxRepos
    · rw [if_pos hlen]
      cases hp : api.searchRepos page with
      | error e => simp
      | ok items =>
        show (if items.isEmpty then
                (Except.ok (some acc) : Except Unit (Option (List RepoItem)))
              else if items.length < perPage then Except.ok (some (acc ++ items))
              else reposLoop api perPage maxRepos n (page + 1) (acc ++ items)) ≠ Except.ok none
        by_cases hemp : items.isEmpty = true
        · rw [if_pos hemp]
          simp
        · rw [if_neg hemp]
          by_cases hlt : items.length < perPage
          · rw [if_pos hlt]
            simp
          · rw [if_neg hlt]
            have hpos : 0 < items.length := by
              cases items with
              | nil => exact absurd rfl hemp
              | cons x xs => simp
            apply ih
            rw [List.length_append]
            omega
    · rw [if_neg hlen]
      simp

/-- The issue pagination loop cannot exhaust its fuel when `per_page ≥ 1`
and the fuel exceeds the number of issues still missing. -/
theorem issuesLoop_terminates (api : Api) (q : String) (perPage maxIssues : Nat)
    (hpp : 1 ≤ perPage) :
    ∀ (fuel page : Nat) (acc : List IssueItem), maxIssues - acc.length < fuel →
      issuesLoop api q perPage maxIssues fuel page acc ≠ .ok none := by
  intro fuel
  induction fuel with
  | zero =>
    intro page acc h
    omega
  | succ n ih =>
    intro page acc h
    simp only [issuesLoop]
    by_cases hlen : acc.length < maxIssues
    · rw [if_pos hlen]
      cases hp : api.searchIssues q perPage page with
      | error e => simp
      | ok hits =>
        show (if hits.length < perPage then
                (Except.ok (some (acc ++ hits)) : Except Unit (Option (List IssueItem)))
              else issuesLoop api q perPage maxIssues n (page + 1) (acc ++ hits)) ≠ Except.ok none
        by_cases hlt : hits.length < perPage
        · rw [if_pos hlt]
          simp
        · rw [if_neg hlt]
          apply ih
          rw [List.length_append]
          omega
    · rw [if_neg hlen]
      simp

/-- C5: for positive `per_page` and sufficient fuel both pagination loops
terminate (they never report fuel exhaustion): each run ends on an HTTP
error, a short or empty page, or on reaching the bound, and a successful
result is truncated to the bound. -/
theorem pagination_terminates (api : Api) (full : Option String) (qExtra : String)
    (perPageR perPageI maxRepos maxIssues fuelR fuelI : Nat)
    (hppR : 1 ≤ perPageR) (hppI : 1 ≤ perPageI)
    (hfR : maxRepos < fuelR) (hfI : maxIssues < fuelI) :
    search_repos_language_java api perPageR maxRepos fuelR ≠ .ok none
    ∧ (∀ l, search_repos_language_java api perPageR maxRepos fuelR = .ok (some l) →
        l.length ≤ maxRepos)
    ∧ search_issues_for_repo api full qExtra perPageI maxIssues fuelI ≠ .ok none
    ∧ (∀ l, search_issues_for_repo api full qExtra perPageI maxIssues fuelI = .ok (some l) →
        l.length ≤ maxIssues) := by
  have hR := reposLoop_terminates api perPageR maxRepos fuelR 1 [] (by simpa using hfR)
  have hI := issuesLoop_terminates api (issueQueryFor full qExtra) perPageI maxIssues hppI
    fuelI 1 [] (by simpa using hfI)
  refine ⟨?_, ?_, ?_, ?_⟩
  · unfold search_repos_language_java
    cases hv : reposLoop api perPageR maxRepos fuelR 1 [] with
    | error e => simp [Except.map]
    | ok o =>
      cases o with
      | none => exact absurd hv hR
      | some l => simp [Except.map]
  · intro l hl
    unfold search_repos_language_java at hl
    cases hv : reposLoop api perPageR maxRepos fuelR 1 [] with
    | error e =>
      rw [hv] at hl
      simp [Except.map] at hl
    | ok o =>
      cases o with
      | none => exact absurd hv hR
      | some l0 =>
        rw [hv] at hl
        simp only [Except.map, Option.map] at hl
        cases hl
        simp [List.length_take]
  · unfold search_issues_for_repo
    cases hv : issuesLoop api (issueQueryFor full qExtra) perPageI maxIssues fuelI 1 [] with
    | error e => simp [Except.map]
    | ok o =>
      cases o with
      | none => exact absurd hv hI
      | some l => simp [Except.map]
  · intro l hl
    unfold search_issues_for_repo at hl
    cases hv : issuesLoop api (issueQueryFor full qExtra) perPageI maxIssues fuelI 1 [] with
    | error e =>
      rw [hv] at hl
      simp [Except.map] at hl
    | ok o =>
      cases o with
      | none => exact absurd hv hI
      | some l0 =>
        rw [hv] at hl
        simp only [Except.map, Option.map] at hl
        cases hl
        simp [List.length_take]

/-- Witness for `pagination_terminates` at the concrete healthy oracle. -/
theorem pagination_terminates_witness :
    search_repos_language_java wApi 50 1 2 ≠ .ok none
    ∧ search_issues_for_repo wApi (some "acme/lib") "" 100 5 6 ≠ .ok none :=
  ⟨(pagination_terminates wApi (some "acme/lib") "" 50 100 1 5 2 6
      (by decide) (by decide) (by decide) (by decide)).1,
   (pagination_terminates wApi (some "acme/lib") "" 50 100 1 5 2 6
      (by decide) (by decide) (by decide) (by decide)).2.2.1⟩

/-- The breaking commit loop of `main` equals a plain map over the segment
of candidates that ends at the first fully runnable commit. -/
theorem commitsLoop_eq_stopSegment (api : Api) (full : Option String) (n : NormIssue) :
    ∀ cs : List RawCommit,
      commitsLoop api full n cs =
        (stopSegment api full cs).filterMap (processCommit api full n) := by
  intro cs
  induction cs with
  | nil => rfl
  | cons c rest ih =>
    cases hd : get_commit_details api full c.sha with
    | error e =>
      have hpc : processCommit api full n c = none := by
        simp [processCommit, hd]
      simp only [commitsLoop, stopSegment, hd, hpc, List.filterMap_cons]
      exact ih
    | ok cd =>
      have hpc : processCommit api full n c = some ⟨n,
        { commit_sha := c.sha
          commit_message := cd.message
          commit_date :=
            match truthyStr cd.committer_date with
            | some d => some d
            | none => cd.author_date
          patch := buildPatchText cd.files
          commit_has_build_file := (commit_has_build_file api full c.sha).1
          commit_build_file_name := (commit_has_build_file api full c.sha).2
          commit_check_success := (commit_check_status_success api full c.sha).1
          commit_check_info := (commit_check_status_success api full c.sha).2 }⟩ := by
        simp [processCommit, hd]
      by_cases hflag : ((commit_has_build_file api full c.sha).1 &&
          (commit_check_status_success api full c.sha).1) = true
      · simp only [commitsLoop, stopSegment, hd, hpc, if_pos hflag, List.filterMap_cons]
        simp [hpc, hflag]
      · simp only [commitsLoop, stopSegment, hd, hpc, if_neg hflag, List.filterMap_cons]
        rw [ih]

/-- The stop segment is an initial segment of the candidate list. -/
theorem stopSegment_isSegment (api : Api) (full : Option String) :
    ∀ cs : List RawCommit, ∃ rest, stopSegment api full cs ++ rest = cs := by
  intro cs
  induction cs with
  | nil => exact ⟨[], rfl⟩
  | cons c cs ih =>
    cases hd : get_commit_details api full c.sha with
    | error e =>
      obtain ⟨rest, hrest⟩ := ih
      refine ⟨rest, ?_⟩
      simp only [stopSegment, hd, List.cons_append, hrest]
    | ok cd =>
      by_cases hflag : ((commit_has_build_file api full c.sha).1 &&
          (commit_check_status_success api full c.sha).1) = true
      · refine ⟨cs, ?_⟩
        simp only [stopSegment, hd, if_pos hflag, List.singleton_append]
      · obtain ⟨rest, hrest⟩ := ih
        refine ⟨rest, ?_⟩
        simp only [stopSegment, hd, if_neg hflag, List.cons_append, hrest]

/-- Every record the commit loop emits except the last lacks at least one of
the two heuristic flags. -/
theorem commitsLoop_dropLast_flags (api : Api) (full : Option String) (n : NormIssue) :
    ∀ cs : List RawCommit, ∀ r ∈ (commitsLoop api full n cs).dropLast,
      ¬(r.commit.commit_has_build_file = true ∧ r.commit.commit_check_success = true) := by
  intro cs
  induction cs with
  | nil =>
    intro r hr
    simp [commitsLoop] at hr
  | cons c rest ih =>
    intro r hr
    cases hpc : processCommit api full n c with
    | none =>
      simp only [commitsLoop, hpc] at hr
      exact ih r hr
    | some rec =>
      by_cases hflag : (rec.commit.commit_has_build_file && rec.commit.commit_check_success) = true
      · simp only [commitsLoop, hpc, if_pos hflag] at hr
        simp at hr
      · simp only [commitsLoop, hpc, if_neg hflag] at hr
        cases hL : commitsLoop api full n rest with
        | nil =>
          rw [hL] at hr
          simp at hr
        | cons x xs =>
          rw [hL, List.dropLast_cons₂] at hr
          cases List.mem_cons.mp hr with
          | inl hrec =>
            subst hrec
            rintro ⟨h1, h2⟩
            rw [h1, h2] at hflag
            simp at hflag
          | inr hmem =>
            exact ih r (by rw [hL]; exact hmem)

/-- C9: `main` processes an issue's candidate commits in list order over the
initial segment ending at the first commit whose record has both heuristic
flags true (skipping commits whose detail fetch fails), and every emitted
record except possibly the last lacks at least one flag, so no candidate
after the first fully runnable one produces a record. -/
theorem commit_loop_stops_at_first_runnable (api : Api) (full : Option String)
    (n : NormIssue) (cs : List RawCommit) :
    commitsLoop api full n cs =
      (stopSegment api full cs).filterMap (processCommit api full n)
    ∧ (∃ rest, stopSegment api full cs ++ rest = cs)
    ∧ (∀ r ∈ (commitsLoop api full n cs).dropLast,
        ¬(r.commit.commit_has_build_file = true ∧ r.commit.commit_check_success = true)) :=
  ⟨commitsLoop_eq_stopSegment api full n cs, stopSegment_isSegment api full cs,
   commitsLoop_dropLast_flags api full n cs⟩

/-- Witness for `commit_loop_stops_at_first_runnable` at the concrete
healthy oracle. -/
theorem commit_loop_stops_at_first_runnable_witness :
    commitsLoop wApi (some "acme/lib") (normalize_issue_item wIssue (some "acme/lib"))
        [⟨some "abc123", some "fix #7", none⟩] =
      (stopSegment wApi (some "acme/lib") [⟨some "abc123", some "fix #7", none⟩]).filterMap
        (processCommit wApi (some "acme/lib") (normalize_issue_item wIssue (some "acme/lib"))) :=
  (commit_loop_stops_at_first_runnable wApi (some "acme/lib")
    (normalize_issue_item wIssue (some "acme/lib")) [⟨some "abc123", some "fix #7", none⟩]).1

/-- Value of `processCommit` when the commit-detail fetch succeeds. -/
theorem processCommit_detail_ok (api : Api) (full : Option String) (n : NormIssue)
    (c : RawCommit) (cd : CommitDetail) (hd : get_commit_details api full c.sha = .ok cd) :
    processCommit api full n c = some ⟨n,
      { commit_sha := c.sha
        commit_message := cd.message
        commit_date :=
          match truthyStr cd.committer_date with
          | some d => some d
          | none => cd.author_date
        patch := buildPatchText cd.files
        commit_has_build_file := (commit_has_build_file api full c.sha).1
        commit_build_file_name := (commit_has_build_file api full c.sha).2
        commit_check_success := (commit_check_status_success api full c.sha).1
        commit_check_info := (commit_check_status_success api full c.sha).2 }⟩ := by
  simp [processCommit, hd]

/-- The number of records the commit loop emits equals the number of
processed (issue, commit) pairs. -/
theorem commitsLoop_length_eq (api : Api) (full : Option String) (n : NormIssue) :
    ∀ cs : List RawCommit, (commitsLoop api full n cs).length = pairsProcessed api full cs := by
  intro cs
  induction cs with
  | nil => rfl
  | cons c rest ih =>
    cases hd : get_commit_details api full c.sha with
    | error e =>
      have hpc : processCommit api full n c = none := by
        simp [processCommit, hd]
      simp only [commitsLoop, pairsProcessed, hd, hpc]
      exact ih
    | ok cd =>
      have hpc := processCommit_detail_ok api full n c cd hd
      by_cases hflag : ((commit_has_build_file api full c.sha).1 &&
          (commit_check_status_success api full c.sha).1) = true
      · simp only [commitsLoop, pairsProcessed, hd, hpc, if_pos hflag]
        rfl
      · simp only [commitsLoop, pairsProcessed, hd, hpc, if_neg hflag, List.length_cons]
        omega

/-- Per-issue record count in terms of the per-issue bookkeeping counts. -/
theorem processIssue_length (api : Api) (full : Option String) (iss : IssueItem) :
    (processIssue api full iss).length =
      (issueCounts api full iss).1 + (issueCounts api full iss).2 := by
  cases hp : iss.pull_request with
  | some pr => simp [processIssue, issueCounts, hp]
  | none =>
    by_cases hc : (find_commits_referencing_issue api full
        (normalize_issue_item iss full).issue_number MAX_COMMITS_PER_ISSUE).isEmpty = true
    · simp [processIssue, issueCounts, hp, hc]
    · simp [processIssue, issueCounts, hp, hc, commitsLoop_length_eq]

/-- Record count of the per-repo issue loop in terms of the bookkeeping
counts. -/
theorem issuesFold_length (api : Api) (full : Option String) :
    ∀ issues : List IssueItem,
      (issuesFold api full issues).length =
        (issuesFoldCounts api full issues).1 + (issuesFoldCounts api full issues).2 := by
  intro issues
  induction issues with
  | nil => rfl
  | cons i rest ih =>
    simp only [issuesFold, issuesFoldCounts, List.length_append, ih, processIssue_length]
    omega

/-- Record count of the repo loop in terms of the bookkeeping counts. -/
theorem processRepos_length (api : Api) (cutoff : Date) (maxIssues fuelI : Nat) :
    ∀ (repos : List RepoItem) (recs : List Record) (pm : Nat × Nat),
      processRepos api cutoff maxIssues fuelI repos = .ok (some recs) →
      reposFoldCounts api cutoff maxIssues fuelI repos = .ok (some pm) →
      recs.length = pm.1 + pm.2 := by
  intro repos
  induction repos with
  | nil =>
    intro recs pm h1 h2
    simp only [processRepos] at h1
    simp only [reposFoldCounts] at h2
    cases h1
    cases h2
    rfl
  | cons repo rest ih =>
    intro recs pm h1 h2
    cases hs : search_issues_for_repo api repo.full_name (qExtraFor cutoff) 100 maxIssues fuelI with
    | error e => simp [processRepos, hs] at h1
    | ok o =>
      cases o with
      | none => simp [processRepos, hs] at h1
      | some issues =>
        cases hrest : processRepos api cutoff maxIssues fuelI rest with
        | error e => simp [processRepos, hs, hrest] at h1
        | ok o2 =>
          cases o2 with
          | none => simp [processRepos, hs, hrest] at h1
          | some more =>
            cases hrestc : reposFoldCounts api cutoff maxIssues fuelI rest with
            | error e => simp [reposFoldCounts, hs, hrestc] at h2
            | ok o3 =>
              cases o3 with
              | none => simp [reposFoldCounts, hs, hrestc] at h2
              | some morec =>
                replace h1 : issuesFold api repo.full_name issues ++ more = recs := by
                  simpa [processRepos, hs, hrest] using h1
                replace h2 : ((issuesFoldCounts api repo.full_name issues).1 + morec.1,
                    (issuesFoldCounts api repo.full_name issues).2 + morec.2) = pm := by
                  simpa [reposFoldCounts, hs, hrestc] using h2
                have hmore := ih more morec hrest hrestc
                rw [← h1, ← h2, List.length_append, issuesFold_length]
                simp only []
                omega

/-- C1: an issue whose candidate search comes back empty contributes exactly
one record with all commit fields null; an issue with candidates contributes
one record per processed (issue, commit) pair; and the final record count of
`main` is the total of processed pairs plus the number of issues recorded
without a candidate commit. -/
theorem record_bookkeeping (api : Api) (cutoff : Date)
    (maxRepos maxIssues fuelR fuelI : Nat) (full : Option String) (iss : IssueItem)
    (recs : List Record) (pm : Nat × Nat) :
    (iss.pull_request = none →
      find_commits_referencing_issue api full iss.number MAX_COMMITS_PER_ISSUE = [] →
      processIssue api full iss = [⟨normalize_issue_item iss full, nullCommitFields⟩])
    ∧ (iss.pull_request = none →
      (processIssue api full iss).length =
        if (find_commits_referencing_issue api full iss.number MAX_COMMITS_PER_ISSUE).isEmpty
        then 1
        else pairsProcessed api full
          (find_commits_referencing_issue api full iss.number MAX_COMMITS_PER_ISSUE))
    ∧ (mainModel api cutoff maxRepos maxIssues fuelR fuelI = .ok (some recs) →
       mainCounts api cutoff maxRepos maxIssues fuelR fuelI = .ok (some pm) →
       recs.length = pm.1 + pm.2) := by
  refine ⟨?_, ?_, ?_⟩
  · intro hp hc
    simp [processIssue, normalize_issue_item, hp, hc]
  · intro hp
    by_cases hc : (find_commits_referencing_issue api full iss.number
        MAX_COMMITS_PER_ISSUE).isEmpty = true
    · simp [processIssue, normalize_issue_item, hp, hc]
    · simp [processIssue, normalize_issue_item, hp, hc, commitsLoop_length_eq]
  · intro h1 h2
    unfold mainModel at h1
    unfold mainCounts at h2
    cases hr : search_repos_language_java api REPOS_PER_PAGE maxRepos fuelR with
    | error e =>
      rw [hr] at h1
      simp at h1
    | ok o =>
      cases o with
      | none =>
        rw [hr] at h1
        simp at h1
      | some repos =>
        rw [hr] at h1 h2
        exact processRepos_length api cutoff maxIssues fuelI repos recs pm h1 h2

/-- Witness for `record_bookkeeping` at the concrete healthy oracle: one
issue, one processed pair, no null-commit record. -/
theorem record_bookkeeping_witness : wRecs.length = 1 + 0 :=
  (record_bookkeeping wApi ⟨2025, 1, 22⟩ 1 5 2 2 (some "acme/lib") wIssue wRecs (1, 0)).2.2
    rfl rfl

/-- The repository pagination loop never raises when no repository-search
page raises. -/
theorem reposLoop_ne_error (api : Api) (perPage maxRepos : Nat)
    (hR : ∀ page, api.searchRepos page ≠ .error ()) :
    ∀ (fuel page : Nat) (acc : List RepoItem),
      reposLoop api perPage maxRepos fuel page acc ≠ .error () := by
  intro fuel
  induction fuel with
  | zero =>
    intro page acc
    simp [reposLoop]
  | succ n ih =>
    intro page acc
    simp only [reposLoop]
    by_cases hlen : acc.length < maxRepos
    · rw [if_pos hlen]
      cases hp : api.searchRepos page with
      | error e =>
        cases e
        exact absurd hp (hR page)
      | ok items =>
        show (if items.isEmpty then
                (Except.ok (some acc) : Except Unit (Option (List RepoItem)))
              else if items.length < perPage then Except.ok (some (acc ++ items))
              else reposLoop api perPage maxRepos n (page + 1) (acc ++ items)) ≠ Except.error ()
        by_cases hemp : items.isEmpty = true
        · rw [if_pos hemp]
          simp
        · rw [if_neg hemp]
          by_cases hlt : items.length < perPage
          · rw [if_pos hlt]
            simp
          · rw [if_neg hlt]
            exact ih (page + 1) (acc ++ items)
    · rw [if_neg hlen]
      simp

/-- The issue pagination loop never raises when no issue-search page
raises. -/
theorem issuesLoop_ne_error (api : Api) (q : String) (perPage maxIssues : Nat)
    (hI : ∀ q' pp page, api.searchIssues q' pp page ≠ .error ()) :
    ∀ (fuel page : Nat) (acc : List IssueItem),
      issuesLoop api q perPage maxIssues fuel page acc ≠ .error () := by
  intro fuel
  induction fuel with
  | zero =>
    intro page acc
    simp [issuesLoop]
  | succ n ih =>
    intro page acc
    simp only [issuesLoop]
    by_cases hlen : acc.length < maxIssues
    · rw [if_pos hlen]
      cases hp : api.searchIssues q perPage page with
      | error e =>
        cases e
        exact absurd hp (hI q perPage page)
      | ok hits =>
        show (if hits.length < perPage then
                (Except.ok (some (acc ++ hits)) : Except Unit (Option (List IssueItem)))
              else issuesLoop api q perPage maxIssues n (page + 1) (acc ++ hits)) ≠ Except.error ()
        by_cases hlt : hits.length < perPage
        · rw [if_pos hlt]
          simp
        · rw [if_neg hlt]
          exact ih (page + 1) (acc ++ hits)
    · rw [if_neg hlen]
      simp

/-- `search_issues_for_repo` never raises when no issue-search page
raises. -/
theorem search_issues_ne_error (api : Api) (full : Option String) (qExtra : String)
    (perPage maxIssues fuel : Nat)
    (hI : ∀ q pp page, api.searchIssues q pp page ≠ .error ()) :
    search_issues_for_repo api full qExtra perPage maxIssues fuel ≠ .error () := by
  unfold search_issues_for_repo
  cases hv : issuesLoop api (issueQueryFor full qExtra) perPage maxIssues fuel 1 [] with
  | error e =>
    cases e
    exact absurd hv (issuesLoop_ne_error api (issueQueryFor full qExtra) perPage maxIssues hI
      fuel 1 [])
  | ok o => simp [Except.map]

/-- The repo loop of `main` never raises when no issue-search page
raises. -/
theorem processRepos_ne_error (api : Api) (cutoff : Date) (maxIssues fuelI : Nat)
    (hI : ∀ q pp page, api.searchIssues q pp page ≠ .error ()) :
    ∀ repos : List RepoItem, processRepos api cutoff maxIssues fuelI repos ≠ .error () := by
  intro repos
  induction repos with
  | nil => simp [processRepos]
  | cons repo rest ih =>
    cases hs : search_issues_for_repo api repo.full_name (qExtraFor cutoff) 100 maxIssues
        fuelI with
    | error e =>
      cases e
      exact absurd hs (search_issues_ne_error api repo.full_name (qExtraFor cutoff) 100
        maxIssues fuelI hI)
    | ok o =>
      cases o with
      | none => simp [processRepos, hs]
      | some issues =>
        cases hrest : processRepos api cutoff maxIssues fuelI rest with
        | error e =>
          cases e
          exact absurd hrest ih
        | ok o2 =>
          cases o2 with
          | none => simp [processRepos, hs, hrest]
          | some more => simp [processRepos, hs, hrest]

/-- C2 counterexample: a non-403 HTTP error raised by the per-repo issue
search is caught nowhere and aborts the whole run, not just the current
item. -/
theorem issue_search_error_aborts_run :
    mainModel issueSearchFailApi ⟨2025, 1, 22⟩ 1 5 2 2 = .error () := rfl

/-- C2 amended: the item-level fetches (commit search, PR lookup, PR commit
list, commit detail, contents, combined status, check runs) are each caught
locally and only skip the current item, so the run never aborts when the
repository search and the issue search succeed; HTTP errors of those two
searches, however, propagate and abort the whole run. -/
theorem item_level_errors_caught (api : Api) (cutoff : Date) (mr mi fr fi : Nat)
    (hR : ∀ page, api.searchRepos page ≠ .error ())
    (hI : ∀ q pp page, api.searchIssues q pp page ≠ .error ()) :
    mainModel api cutoff mr mi fr fi ≠ .error () := by
  unfold mainModel
  cases hr0 : search_repos_language_java api REPOS_PER_PAGE mr fr with
  | error e =>
    cases e
    exfalso
    unfold search_repos_language_java at hr0
    cases hv : reposLoop api REPOS_PER_PAGE mr fr 1 [] with
    | error e2 =>
      cases e2
      exact reposLoop_ne_error api REPOS_PER_PAGE mr hR fr 1 [] hv
    | ok o =>
      rw [hv] at hr0
      simp [Except.map] at hr0
  | ok o =>
    cases o with
    | none => simp
    | some repos =>
      show processRepos api cutoff mi fi repos ≠ .error ()
      exact processRepos_ne_error api cutoff mi fi hI repos

/-- Witness for `item_level_errors_caught`: with every item-level endpoint
failing, the run still completes. -/
theorem item_level_errors_caught_witness :
    mainModel itemFailApi ⟨2025, 1, 22⟩ 1 5 2 2 ≠ .error () :=
  item_level_errors_caught itemFailApi ⟨2025, 1, 22⟩ 1 5 2 2
    (fun _ h => Except.noConfusion h) (fun _ _ _ h => Except.noConfusion h)

/-- Every record the commit loop emits carries the normalized issue it was
built from. -/
theorem commitsLoop_issue_eq (api : Api) (full : Option String) (n : NormIssue) :
    ∀ cs : List RawCommit, ∀ r ∈ commitsLoop api full n cs, r.issue = n := by
  intro cs
  induction cs with
  | nil =>
    intro r hr
    simp [commitsLoop] at hr
  | cons c rest ih =>
    intro r hr
    cases hd : get_commit_details api full c.sha with
    | error e =>
      have hpc : processCommit api full n c = none := by
        simp [processCommit, hd]
      simp only [commitsLoop, hpc] at hr
      exact ih r hr
    | ok cd =>
      have hpc := processCommit_detail_ok api full n c cd hd
      by_cases hflag : ((commit_has_build_file api full c.sha).1 &&
          (commit_check_status_success api full c.sha).1) = true
      · simp only [commitsLoop, hpc, if_pos hflag, List.mem_singleton] at hr
        subst hr
        rfl
      · simp only [commitsLoop, hpc, if_neg hflag, List.mem_cons] at hr
        cases hr with
        | inl hrec =>
          subst hrec
          rfl
        | inr hmem => exact ih r hmem

/-- Every record an issue produces carries that issue's `created_at`. -/
theorem processIssue_created_at (api : Api) (full : Option String) (iss : IssueItem) :
    ∀ r ∈ processIssue api full iss, r.issue.issue_created_at = iss.created_at := by
  intro r hr
  cases hp : iss.pull_request with
  | some pr => simp [processIssue, hp] at hr
  | none =>
    simp only [processIssue, hp, Option.isSome_none, Bool.false_eq_true, if_false] at hr
    split at hr
    · simp only [List.mem_singleton] at hr
      subst hr
      rfl
    · have := commitsLoop_issue_eq api full (normalize_issue_item iss full) _ r hr
      rw [this]
      rfl

/-- Every record of the per-repo issue loop comes from one of the issues in
the list. -/
theorem issuesFold_mem_source (api : Api) (full : Option String) :
    ∀ (issues : List IssueItem) (r : Record), r ∈ issuesFold api full issues →
      ∃ iss ∈ issues, r ∈ processIssue api full iss := by
  intro issues
  induction issues with
  | nil =>
    intro r hr
    simp [issuesFold] at hr
  | cons i rest ih =>
    intro r hr
    simp only [issuesFold, List.mem_append] at hr
    cases hr with
    | inl h => exact ⟨i, List.mem_cons_self i rest, h⟩
    | inr h =>
      obtain ⟨iss, hmem, hin⟩ := ih r h
      exact ⟨iss, List.mem_cons_of_mem i hmem, hin⟩

/-- Every issue the pagination loop returns came from the accumulator or
from some fetched page. -/
theorem issuesLoop_mem_pages (api : Api) (q : String) (perPage maxIssues : Nat) :
    ∀ (fuel page : Nat) (acc l : List IssueItem),
      issuesLoop api q perPage maxIssues fuel page acc = .ok (some l) →
      ∀ it ∈ l, it ∈ acc ∨ ∃ pg hits, api.searchIssues q perPage pg = .ok hits ∧ it ∈ hits := by
  intro fuel
  induction fuel with
  | zero =>
    intro page acc l h
    simp [issuesLoop] at h
  | succ n ih =>
    intro page acc l h it hit
    simp only [issuesLoop] at h
    by_cases hlen : acc.length < maxIssues
    · rw [if_pos hlen] at h
      cases hp : api.searchIssues q perPage page with
      | error e =>
        rw [hp] at h
        simp at h
      | ok hits =>
        rw [hp] at h
        replace h : (if hits.length < perPage then
            (Except.ok (some (acc ++ hits)) : Except Unit (Option (List IssueItem)))
            else issuesLoop api q perPage maxIssues n (page + 1) (acc ++ hits)) =
            .ok (some l) := h
        by_cases hlt : hits.length < perPage
        · rw [if_pos hlt] at h
          replace h : acc ++ hits = l := by
            simpa using h
          rw [← h] at hit
          rcases List.mem_append.mp hit with hm | hm
          · exact Or.inl hm
          · exact Or.inr ⟨page, hits, hp, hm⟩
        · rw [if_neg hlt] at h
          rcases ih (page + 1) (acc ++ hits) l h it hit with hm | hm
          · rcases List.mem_append.mp hm with hm2 | hm2
            · exact Or.inl hm2
            · exact Or.inr ⟨page, hits, hp, hm2⟩
          · exact Or.inr hm
    · rw [if_neg hlen] at h
      replace h : acc = l := by
        simpa using h
      exact Or.inl (h ▸ hit)

/-- Every issue `search_issues_for_repo` returns came from some fetched
page of the built query. -/
theorem search_issues_mem_pages (api : Api) (full : Option String) (qExtra : String)
    (perPage maxIssues fuel : Nat) (l : List IssueItem)
    (h : search_issues_for_repo api full qExtra perPage maxIssues fuel = .ok (some l)) :
    ∀ it ∈ l, ∃ pg hits,
      api.searchIssues (issueQueryFor full qExtra) perPage pg = .ok hits ∧ it ∈ hits := by
  intro it hit
  unfold search_issues_for_repo at h
  cases hv : issuesLoop api (issueQueryFor full qExtra) perPage maxIssues fuel 1 [] with
  | error e =>
    rw [hv] at h
    simp [Except.map] at h
  | ok o =>
    cases o with
    | none =>
      rw [hv] at h
      simp [Except.map] at h
    | some l0 =>
      rw [hv] at h
      replace h : l0.take maxIssues = l := by
        simpa [Except.map, Option.map] using h
      have hmem : it ∈ l0 := List.take_subset maxIssues l0 (h ▸ hit)
      rcases issuesLoop_mem_pages api (issueQueryFor full qExtra) perPage maxIssues fuel 1 []
          l0 hv it hmem with hm | hm
      · simp at hm
      · exact hm

/-- Every record of the repo loop has an issue satisfying the cutoff bound
when every fetched issue does. -/
theorem processRepos_created_at (api : Api) (cutoff : Date) (maxIssues fuelI : Nat)
    (hF : ∀ (full : Option String) (page : Nat) (hits : List IssueItem),
      api.searchIssues (issueQueryFor full (qExtraFor cutoff)) 100 page = .ok hits →
      ∀ it ∈ hits, ∃ s, it.created_at = some s ∧ strLe (isoformat cutoff) s = true) :
    ∀ (repos : List RepoItem) (recs : List Record),
      processRepos api cutoff maxIssues fuelI repos = .ok (some recs) →
      ∀ rec ∈ recs, ∃ s, rec.issue.issue_created_at = some s ∧
        strLe (isoformat cutoff) s = true := by
  intro repos
  induction repos with
  | nil =>
    intro recs h rec hrec
    replace h : ([] : List Record) = recs := by
      simpa [processRepos] using h
    rw [← h] at hrec
    simp at hrec
  | cons repo rest ih =>
    intro recs h rec hrec
    cases hs : search_issues_for_repo api repo.full_name (qExtraFor cutoff) 100 maxIssues
        fuelI with
    | error e => simp [processRepos, hs] at h
    | ok o =>
      cases o with
      | none => simp [processRepos, hs] at h
      | some issues =>
        cases hrest : processRepos api cutoff maxIssues fuelI rest with
        | error e => simp [processRepos, hs, hrest] at h
        | ok o2 =>
          cases o2 with
          | none => simp [processRepos, hs, hrest] at h
          | some more =>
            replace h : issuesFold api repo.full_name issues ++ more = recs := by
              simpa [processRepos, hs, hrest] using h
            rw [← h] at hrec
            rcases List.mem_append.mp hrec with hmem | hmem
            · obtain ⟨iss, hissmem, hin⟩ :=
                issuesFold_mem_source api repo.full_name issues rec hmem
              obtain ⟨pg, hits, hpg, hitmem⟩ :=
                search_issues_mem_pages api repo.full_name (qExtraFor cutoff) 100 maxIssues
                  fuelI issues hs iss hissmem
              obtain ⟨s, hcs, hle⟩ := hF repo.full_name pg hits hpg iss hitmem
              refine ⟨s, ?_, hle⟩
              rw [processIssue_created_at api repo.full_name iss rec hin, hcs]
            · exact ih more hrest rec hmem

/-- C8: the per-repo issue query is exactly
`repo:{full_name} is:issue label:bug created:>={cutoff}` with the cutoff in
ISO `YYYY-MM-DD` form, and consequently — provided the search endpoint
honours the query's `created:>=` filter — every output record's issue was
created on or after the cutoff date. -/
theorem cutoff_query_filters (api : Api) (cutoff : Date)
    (maxRepos maxIssues fuelR fuelI : Nat) (recs : List Record) :
    (∀ full : Option String,
      issueQueryFor full (qExtraFor cutoff) =
        "repo:" ++ pyStr full ++ " is:issue label:bug created:>=" ++ isoformat cutoff)
    ∧ ((∀ (full : Option String) (page : Nat) (hits : List IssueItem),
          api.searchIssues (issueQueryFor full (qExtraFor cutoff)) 100 page = .ok hits →
          ∀ it ∈ hits, ∃ s, it.created_at = some s ∧ strLe (isoformat cutoff) s = true) →
        mainModel api cutoff maxRepos maxIssues fuelR fuelI = .ok (some recs) →
        ∀ rec ∈ recs, ∃ s, rec.issue.issue_created_at = some s ∧
          strLe (isoformat cutoff) s = true) := by
  constructor
  · intro full
    unfold issueQueryFor qExtraFor
    simp only [String.append_assoc]
    rfl
  · intro hF hmain rec hrec
    unfold mainModel at hmain
    cases hr : search_repos_language_java api REPOS_PER_PAGE maxRepos fuelR with
    | error e =>
      rw [hr] at hmain
      simp at hmain
    | ok o =>
      cases o with
      | none =>
        rw [hr] at hmain
        simp at hmain
      | some repos =>
        rw [hr] at hmain
        exact processRepos_created_at api cutoff maxIssues fuelI hF repos recs hmain rec hrec

/-- Witness for `cutoff_query_filters` at the concrete healthy oracle. -/
theorem cutoff_query_filters_witness :
    ∃ s, wRec.issue.issue_created_at = some s ∧
      strLe (isoformat ⟨2025, 1, 22⟩) s = true :=
  (cutoff_query_filters wApi ⟨2025, 1, 22⟩ 1 5 2 2 wRecs).2
    (fun full page hits h it hit => by
      have h' : ([wIssue] : List IssueItem) = hits := Except.ok.inj h
      rw [← h'] at hit
      simp only [List.mem_singleton] at hit
      subst hit
      exact ⟨"2025-03-01T00:00:00Z", rfl, by decide⟩)
    rfl wRec (List.mem_cons_self wRec [])

end BugFind
